import Mathlib

/-!
Verification development for the DualPI2 queue discipline
(src/src/traffic-control/model/dual-pi2-queue-disc.cc).

Shallow embedding conventions:
- ns-3 Time values are modelled as integer nanoseconds (ZZ); GetSeconds()
  becomes division by 10^9 in QQ.
- C++ doubles (probabilities, counters, alpha, beta, k, scheduling weight,
  deficits) are modelled as exact rationals QQ.
- The two internal FIFO queues, the two staging FIFOs and the drop log are
  Lean lists (front of the list = head of line).
- Loops are modelled by fuel recursion; the fuel values mirror the bounds of
  the source (or a sufficient bound for loops bounded by the queue length).
- NS_LOG / trace callbacks are ignored except for the traced member fields
  (pC, pCL, pL) which the source stores in the object itself.
-/

namespace DualPi2

/-- Drop reasons used by the queue disc (FORCED_DROP at enqueue,
UNFORCED_CLASSIC_DROP and UNFORCED_L4S_DROP at dequeue). -/
inductive DropReason where
  | forcedDrop
  | unforcedClassicDrop
  | unforcedL4sDrop
deriving DecidableEq, Repr

/-- The two traffic classes; the source uses indices CLASSIC = 0 and L4S = 1
(NONE = 2 is modelled as Option.none). -/
inductive TrafficClass where
  | classic
  | l4s
deriving DecidableEq, Repr

/-- A queue disc item: byte size, enqueue timestamp (ns), and the 8-bit DS
field of the IP header. GetUint8Value(IP_DSFIELD, b) can fail (non-IP
packets); that is modelled by dsField = none. -/
structure Item where
  size : Nat
  timestamp : Int
  dsField : Option Nat
deriving DecidableEq, Repr

/-- WDRR scheduler state: the two deficit counters (bytes, exact rationals
because the L quantum is scaled by the double-valued scheduling weight) and
the two round-mask bits (m_drrQueues). The member declarations live in the
header file dual-pi2-queue-disc.h, which is not among the provided sources;
the fields are taken from their uses in the .cc file and from the spec
(deficit counters in bytes, a two-bit round-active mask). -/
structure SchedSt where
  llDef : Rat
  cDef : Rat
  maskL : Bool
  maskC : Bool
deriving DecidableEq, Repr

/-- Full queue discipline state. drops is an observation log of dropped
packets with their reasons (the source reports these through
DropBeforeEnqueue / DropAfterDequeue). -/
structure QState where
  qC : List Item
  qL : List Item
  stagingC : List Item
  stagingL : List Item
  baseProb : Rat
  pCL : Rat
  pC : Rat
  pL : Rat
  pCmax : Rat
  pLmax : Rat
  prevQ : Int
  l4sCount : Rat
  classicCount : Rat
  sched : SchedSt
  cLatencySample : Int
  lLatencySample : Int
  cBytesSample : Nat
  drops : List (Item × DropReason)
deriving DecidableEq, Repr

/-- Configuration attributes (defaults per GetTypeId). Times in ns. -/
structure Config where
  mtu : Nat
  alpha : Rat
  beta : Rat
  target : Int
  minTh : Int
  range : Int
  k : Rat
  schedulingWeight : Rat
  drrQuantum : Nat
  queueLimit : Nat
  aggBufferLimit : Nat
  disableLaqm : Bool
  enableWifiClassicLatencyEstimator : Bool
deriving DecidableEq, Repr

/-- Total bytes held in a list of items. -/
def bytesOf (l : List Item) : Nat := (l.map Item.size).sum

/-- DualPi2QueueDisc::IsL4s: read the DS byte; ECT(1) (low bits 01) or CE
(low bits 11) classify as L4S; unreadable DS field or any other codepoint
classifies as Classic. -/
def IsL4s (item : Item) : Bool :=
  match item.dsField with
  | some tos => tos % 4 == 1 || tos % 4 == 3
  | none => false

/-- Modelled from the spec: the packet contract of section 6 for the mark()
operation (Ipv4QueueDiscItem::Mark is framework code outside the provided
sources). Marking sets the two ECN bits to CE (11) and returns true; it
fails (returns false, packet unchanged) for Not-ECT packets and for items
whose DS field cannot be read. -/
def MarkItem (item : Item) : Item × Bool :=
  match item.dsField with
  | some tos =>
      if tos % 4 ≠ 0 then ({ item with dsField := some (tos / 4 * 4 + 3) }, true)
      else (item, false)
  | none => (item, false)

/-- The condition tested by the pending-dequeue mark top-up walk:
GetUint8Value succeeds and (tosByte AND 0x3) == 1, i.e. ECT(1). -/
def isECT1Item (item : Item) : Bool :=
  match item.dsField with
  | some tos => tos % 4 == 1
  | none => false

/-- Number of ECT(1)-bearing items in a list. -/
def countECT1 (l : List Item) : Nat := (l.filter isECT1Item).length

/-- DualPi2QueueDisc::Recur: add the likelihood to the counter; if the
counter then exceeds 1, subtract 1 and report true. Returns (triggered,
new counter value). -/
def Recur (count likelihood : Rat) : Bool × Rat :=
  let c := count + likelihood
  if 1 < c then (true, c - 1) else (false, c)

/-- Nanoseconds to seconds (Time::GetSeconds). -/
def secondsOf (t : Int) : Rat := (t : Rat) / 1000000000

/-- DualPi2QueueDisc::Laqm: 0 if disabled; 1 for sojourn at or above
minTh + range; the linear ramp (sojourn - minTh)/range strictly between
minTh and minTh + range; 0 otherwise. The ramp is the quotient of the two
GetSeconds() values, which equals the quotient of the ns values. -/
def Laqm (cfg : Config) (qDelay : Int) : Rat :=
  if cfg.disableLaqm then 0
  else if cfg.minTh + cfg.range ≤ qDelay then 1
  else if cfg.minTh < qDelay then ((qDelay - cfg.minTh : Int) : Rat) / ((cfg.range : Int) : Rat)
  else 0

/-- DualPi2QueueDisc::DoEnqueue: tail drop at the shared byte pool
(FORCED_DROP) when current bytes plus the item size exceed the queue limit;
otherwise route by IsL4s to the L4S or Classic FIFO. Returns (result,
new state). The internal DropTailQueue enqueue always succeeds because
CheckConfig forces each internal queue capacity to at least the queue
limit. -/
def DoEnqueue (cfg : Config) (item : Item) (s : QState) : Bool × QState :=
  if cfg.queueLimit < bytesOf s.qC + bytesOf s.qL + item.size then
    (false, { s with drops := s.drops ++ [(item, DropReason.forcedDrop)] })
  else if IsL4s item then
    (true, { s with qL := s.qL ++ [item] })
  else
    (true, { s with qC := s.qC ++ [item] })

/-- DualPi2QueueDisc::DualPi2Update (one firing of the PI2 timer, without
the rescheduling side effect). cQ comes from the Wi-Fi latency estimator
samples when enabled (the integer expression of the source, which divides
int64 nanosecond products with C++ truncating division), otherwise from the
head-of-line sojourn of the Classic queue; lQ from the head-of-line sojourn
of the L4S queue; empty queues contribute the default-constructed Time 0. -/
def DualPi2Update (cfg : Config) (now : Int) (s : QState) : QState :=
  let cQ : Int :=
    if cfg.enableWifiClassicLatencyEstimator then
      min (max s.cLatencySample s.lLatencySample)
        (Int.tdiv ((s.cBytesSample : Int) * cfg.target) (cfg.aggBufferLimit : Int))
    else
      match s.qC.head? with
      | some it => now - it.timestamp
      | none => 0
  let lQ : Int :=
    match s.qL.head? with
    | some it => now - it.timestamp
    | none => 0
  let curQ := max cQ lQ
  let bp0 := s.baseProb + cfg.alpha * (((curQ - cfg.target : Int) : Rat) / 1000000000)
      + cfg.beta * (((curQ - s.prevQ : Int) : Rat) / 1000000000)
  let bp1 := max bp0 0
  let bp2 := min bp1 1
  { s with
    baseProb := bp2
    pCL := min (bp2 * cfg.k) 1
    pC := bp2 * bp2
    prevQ := curQ }

/-- Clamp a rational to the interval [0,1]. -/
def clamp01 (x : Rat) : Rat := min (max x 0) 1

/-- Spec-side formulation of one PI2 update, following the words of the
claim and of spec section 4.2: compute current_q; add
alpha*(current_q - target) + beta*(current_q - prev_q) with times taken in
seconds; clamp base_prob to [0,1]; set p_CL = min(k*base_prob, 1) and
p_C = base_prob^2; finally set prev_q = current_q. -/
def PiUpdateSpec (cfg : Config) (now : Int) (s : QState) : QState :=
  let cQ : Int :=
    if cfg.enableWifiClassicLatencyEstimator then
      min (max s.cLatencySample s.lLatencySample)
        (Int.tdiv ((s.cBytesSample : Int) * cfg.target) (cfg.aggBufferLimit : Int))
    else
      match s.qC.head? with
      | some it => now - it.timestamp
      | none => 0
  let lQ : Int :=
    match s.qL.head? with
    | some it => now - it.timestamp
    | none => 0
  let curQ := max cQ lQ
  let bp := clamp01 (s.baseProb
      + cfg.alpha * (secondsOf curQ - secondsOf cfg.target)
      + cfg.beta * (secondsOf curQ - secondsOf s.prevQ))
  { s with
    baseProb := bp
    pCL := min (cfg.k * bp) 1
    pC := bp * bp
    prevQ := curQ }

/-- Result of DequeueFromL4sQueue: the returned item (none when the L4S
queue ran empty), the in-out marked flag, the list of items this call
dropped (in drop order), and the resulting state. -/
structure LDeqResult where
  item : Option Item
  marked : Bool
  droppedItems : List Item
  state : QState
deriving DecidableEq, Repr

/-- Result of DequeueFromClassicQueue, with the in-out dropped flag. -/
structure CDeqResult where
  item : Option Item
  droppedFlag : Bool
  droppedItems : List Item
  state : QState
deriving DecidableEq, Repr

/-- Body of DequeueFromL4sQueue, fuel-recursive over the pops. Per pop:
in the normal regime (pCL < pLmax) compute the native LAQM probability
(suppressed unless more than m_thLen = 1 packets remain), take
pL = min(max(pPrimeL, pCL), 1), publish it, and mark on Recur(l4sCount, pL);
in overload, drop on Recur(l4sCount, pC) and loop, else mark on
Recur(l4sCount, pCL). -/
def DeqLAux (cfg : Config) (now : Int) : Nat → QState → LDeqResult
  | 0, s => ⟨none, false, [], s⟩
  | fuel + 1, s =>
    match s.qL with
    | [] => ⟨none, false, [], s⟩
    | hd :: tl =>
      let s1 := { s with qL := tl }
      if s.pCL < s.pLmax then
        let pPrime := if 1 < tl.length then Laqm cfg (now - hd.timestamp) else 0
        let pLv := min (max pPrime s.pCL) 1
        let rc := Recur s.l4sCount pLv
        let s2 := { s1 with pL := pLv, l4sCount := rc.2 }
        if rc.1 then
          let m := MarkItem hd
          ⟨some m.1, m.2, [], s2⟩
        else ⟨some hd, false, [], s2⟩
      else
        let rc1 := Recur s.l4sCount s.pC
        if rc1.1 then
          let s2 := { s1 with
                      l4sCount := rc1.2
                      drops := s.drops ++ [(hd, DropReason.unforcedL4sDrop)] }
          let r := DeqLAux cfg now fuel s2
          { r with droppedItems := hd :: r.droppedItems }
        else
          let rc2 := Recur rc1.2 s.pCL
          let s2 := { s1 with l4sCount := rc2.2 }
          if rc2.1 then
            let m := MarkItem hd
            ⟨some m.1, m.2, [], s2⟩
          else ⟨some hd, false, [], s2⟩

/-- DualPi2QueueDisc::DequeueFromL4sQueue. The while loop pops at most one
item per iteration, so qL.length + 1 fuel is exact. -/
def DequeueFromL4sQueue (cfg : Config) (now : Int) (s : QState) : LDeqResult :=
  DeqLAux cfg now (s.qL.length + 1) s

/-- The while loop of DequeueFromClassicQueue, holding the already-popped
current item. Note: the 2-MTU safety check is NOT re-applied here; it is
only applied to the first pop (see DequeueFromClassicQueue). Recur is
always evaluated (its side effect on classicCount happens even when the
drop is forced by pC at or above pCmax). -/
def DeqCAux (cfg : Config) (now : Int) : Nat → Item → Bool → QState → CDeqResult
  | 0, hd, dr, s => ⟨some hd, dr, [], s⟩
  | fuel + 1, hd, dr, s =>
    let rc := Recur s.classicCount s.pC
    let s1 := { s with classicCount := rc.2 }
    if rc.1 = true ∨ s.pCmax ≤ s.pC then
      let s2 := { s1 with drops := s1.drops ++ [(hd, DropReason.unforcedClassicDrop)] }
      match s2.qC with
      | [] => ⟨none, true, [hd], { s2 with qC := [] }⟩
      | hd2 :: tl2 =>
        let r := DeqCAux cfg now fuel hd2 true { s2 with qC := tl2 }
        { r with droppedItems := hd :: r.droppedItems }
    else ⟨some hd, dr, [], s1⟩

/-- DualPi2QueueDisc::DequeueFromClassicQueue: pop the head; if fewer than
2*MTU bytes remain in the Classic queue after the pop, return it with no
AQM consideration (Linux heuristic); otherwise run the drop loop. -/
def DequeueFromClassicQueue (cfg : Config) (now : Int) (s : QState) : CDeqResult :=
  match s.qC with
  | [] => ⟨none, false, [], s⟩
  | hd :: tl =>
    let s1 := { s with qC := tl }
    if bytesOf tl < 2 * cfg.mtu then ⟨some hd, false, [], s1⟩
    else DeqCAux cfg now (tl.length + 1) hd false s1

/-- Outcome of one iteration of the WDRR loop body: a selection, or
continue with an updated scheduler state. -/
inductive StepRes where
  | sel : TrafficClass → SchedSt → StepRes
  | cont : SchedSt → StepRes
deriving DecidableEq, Repr

/-- The round-start block of the Scheduler loop body: if the round mask is
empty, set both bits and grow the L deficit by quantum * weight and the
Classic deficit by quantum. -/
def schedRound (cfg : Config) (st : SchedSt) : SchedSt :=
  if st.maskL = false ∧ st.maskC = false then
    { st with
      maskL := true
      maskC := true
      llDef := st.llDef + (cfg.drrQuantum : Rat) * cfg.schedulingWeight
      cDef := st.cDef + (cfg.drrQuantum : Rat) }
  else st

/-- The L4S block of the Scheduler loop body: select L4S when it is
eligible with a nonzero head-of-line size within the deficit; otherwise end
its round when it was considered, and zero its deficit and clear its bit
when its queue is empty. A nonempty but ineligible L4S queue leaves the
mask untouched. -/
def schedTryL (eligL : Bool) (holL : Nat) (st : SchedSt) : StepRes :=
  if holL ≠ 0 ∧ eligL = true ∧ (holL : Rat) ≤ st.llDef then
    StepRes.sel TrafficClass.l4s { st with llDef := st.llDef - (holL : Rat) }
  else
    let st1 := if holL ≠ 0 ∧ eligL = true then { st with maskL := false } else st
    let st2 := if holL = 0 then { st1 with maskL := false, llDef := 0 } else st1
    StepRes.cont st2

/-- The Classic block of the Scheduler loop body, mirroring schedTryL. -/
def schedTryC (eligC : Bool) (holC : Nat) (st : SchedSt) : StepRes :=
  if holC ≠ 0 ∧ eligC = true ∧ (holC : Rat) ≤ st.cDef then
    StepRes.sel TrafficClass.classic { st with cDef := st.cDef - (holC : Rat) }
  else
    let st1 := if holC ≠ 0 ∧ eligC = true then { st with maskC := false } else st
    let st2 := if holC = 0 then { st1 with maskC := false, cDef := 0 } else st1
    StepRes.cont st2

/-- One iteration of the loop body of DualPi2QueueDisc::Scheduler: the
round-start block, then the L4S selection attempt, then (if L4S did not
return) the Classic selection attempt. -/
def schedStep (cfg : Config) (eligC eligL : Bool) (holC holL : Nat) (st : SchedSt) : StepRes :=
  match schedTryL eligL holL (schedRound cfg st) with
  | StepRes.sel c st2 => StepRes.sel c st2
  | StepRes.cont st2 => schedTryC eligC holC st2

/-- Fuel-bounded iteration of schedStep; none models falling out of the
loop into NS_FATAL_ERROR. -/
def schedulerLoop (cfg : Config) (eligC eligL : Bool) (holC holL : Nat) :
    Nat → SchedSt → Option TrafficClass × SchedSt
  | 0, st => (none, st)
  | fuel + 1, st =>
    match schedStep cfg eligC eligL holC holL st with
    | StepRes.sel c st2 => (some c, st2)
    | StepRes.cont st2 => schedulerLoop cfg eligC eligL holC holL fuel st2

/-- The number of loop-body executions the source can actually perform.
The written bound is 1000, but the loop body increments maxIterations on
every iteration, so the exit condition i < maxIterations first fails when
the uint32 maxIterations wraps around: after 2^32 - 1000 iterations. -/
def schedulerCap : Nat := 4294966296

/-- Head-of-line size of a queue (0 when empty, as the source leaves the
local size variable at 0 when Peek returns null). -/
def holOf (l : List Item) : Nat :=
  match l.head? with
  | some it => it.size
  | none => 0

/-- DualPi2QueueDisc::Scheduler: head-of-line sizes are sampled once before
the loop; an empty queue disc returns NONE; otherwise iterate the WDRR body
(falling out of the loop is the NS_FATAL_ERROR path, modelled as none). -/
def Scheduler (cfg : Config) (eligC eligL : Bool) (s : QState) : Option TrafficClass × SchedSt :=
  if s.qC.length + s.qL.length = 0 then (none, s.sched)
  else schedulerLoop cfg eligC eligL (holOf s.qC) (holOf s.qL) schedulerCap s.sched

/-- DualPi2QueueDisc::CanSchedule: a class is eligible when the queue disc
is nonempty and its head-of-line size plus the 38-byte Wi-Fi framing
overhead fits within the byte limit. Pair order is (Classic, L4S) as in
the source. -/
def CanSchedule (cfg : Config) (byteLimit : Nat) (s : QState) : Bool × Bool :=
  if s.qC.length + s.qL.length = 0 then (false, false)
  else
    let lHolW := match s.qL.head? with | some it => it.size + 38 | none => 0
    let cHolW := match s.qC.head? with | some it => it.size + 38 | none => 0
    (decide (cHolW ≠ 0 ∧ cHolW ≤ byteLimit), decide (lHolW ≠ 0 ∧ lHolW ≤ byteLimit))

/-- The while loop of DoDequeue over the live queues: run the scheduler
with both classes eligible, apply the AQM-decorated dequeue of the selected
class, and loop when it consumed its packets by dropping. Fuel is the total
packet count, which bounds the iterations since every selected dequeue
removes at least one packet. -/
def DoDequeueLoop (cfg : Config) (now : Int) : Nat → QState → Option Item × QState
  | 0, s => (none, s)
  | fuel + 1, s =>
    if bytesOf s.qC + bytesOf s.qL = 0 then (none, s)
    else
      match Scheduler cfg true true s with
      | (some TrafficClass.l4s, st) =>
        let r := DequeueFromL4sQueue cfg now { s with sched := st }
        match r.item with
        | some it => (some it, r.state)
        | none => DoDequeueLoop cfg now fuel r.state
      | (some TrafficClass.classic, st) =>
        let r := DequeueFromClassicQueue cfg now { s with sched := st }
        match r.item with
        | some it => (some it, r.state)
        | none => DoDequeueLoop cfg now fuel r.state
      | (none, st) => (none, { s with sched := st })

/-- DualPi2QueueDisc::DoDequeue: drain the L4S staging FIFO first, then the
Classic staging FIFO, then schedule from the live queues. -/
def DoDequeue (cfg : Config) (now : Int) (s : QState) : Option Item × QState :=
  match s.stagingL with
  | it :: rest => (some it, { s with stagingL := rest })
  | [] =>
    match s.stagingC with
    | it :: rest => (some it, { s with stagingC := rest })
    | [] => DoDequeueLoop cfg now (s.qC.length + s.qL.length) s

/-- Sample refresh at the top of PendingDequeueCallback: head-of-line
sojourn samples for both queues (0 when empty) and the Classic byte count. -/
def refreshSamples (now : Int) (s : QState) : QState :=
  { s with
    cLatencySample := (match s.qC.head? with | some it => now - it.timestamp | none => 0)
    lLatencySample := (match s.qL.head? with | some it => now - it.timestamp | none => 0)
    cBytesSample := bytesOf s.qC }

/-- GetNBytes() + 38 * GetNPackets() over the two internal queues. -/
def queueDiscPending (s : QState) : Nat :=
  bytesOf s.qC + bytesOf s.qL + 38 * (s.qC.length + s.qL.length)

/-- The pending-dequeue mark top-up walk: traverse the L4S staging queue in
FIFO order while marks remain to be made, marking each ECT(1)-bearing
packet (already-CE and non-ECN packets are skipped and left unchanged). -/
def markWalk : Nat → List Item → List Item
  | 0, l => l
  | _ + 1, [] => []
  | n + 1, it :: rest =>
    if isECT1Item it then (MarkItem it).1 :: markWalk n rest
    else it :: markWalk (n + 1) rest

/-- The batch loop of PendingDequeueCallback: while some class is eligible
within the remaining byte budget, schedule and dequeue through the AQM;
surviving L4S packets are appended to the L4S staging queue (counting those
that came back marked), surviving Classic packets to the Classic staging
queue; each packet consumes its size plus 38 framing bytes from the budget.
Returns the state and the marked count. The source caps this loop at 1000
iterations with an assertion; fuel exhaustion models that abort. -/
def BatchLoop (cfg : Config) (now : Int) : Nat → Nat → Nat → QState → QState × Nat
  | 0, _, mc, s => (s, mc)
  | fuel + 1, left, mc, s =>
    let elig := CanSchedule cfg left s
    if elig.1 = false ∧ elig.2 = false then (s, mc)
    else
      match Scheduler cfg elig.1 elig.2 s with
      | (some TrafficClass.l4s, st) =>
        let r := DequeueFromL4sQueue cfg now { s with sched := st }
        match r.item with
        | none => BatchLoop cfg now fuel left mc r.state
        | some it =>
          BatchLoop cfg now fuel (left - (it.size + 38)) (if r.marked then mc + 1 else mc)
            { r.state with stagingL := r.state.stagingL ++ [it] }
      | (some TrafficClass.classic, st) =>
        let r := DequeueFromClassicQueue cfg now { s with sched := st }
        match r.item with
        | none => BatchLoop cfg now fuel left mc r.state
        | some it =>
          BatchLoop cfg now fuel (left - (it.size + 38)) mc
            { r.state with stagingC := r.state.stagingC ++ [it] }
      | (none, st) => ({ s with sched := st }, mc)

/-- DualPi2QueueDisc::PendingDequeueCallback: refresh the estimator
samples; do nothing further unless the downstream queue is stopped and the
pending byte count does not exceed what the queue disc holds (in Wi-Fi
framed bytes); otherwise stage a batch and then top up the marks so that
the marks made in the staging queue reach the number of packets remaining
in the live L4S queue. -/
def PendingDequeueCallback (cfg : Config) (now : Int) (stopped : Bool) (pendingBytes : Nat)
    (s : QState) : QState :=
  let s := refreshSamples now s
  if stopped = false then s
  else if queueDiscPending s < pendingBytes then s
  else
    let bs := BatchLoop cfg now 1000 pendingBytes 0 s
    if bs.2 < bs.1.qL.length then
      { bs.1 with stagingL := markWalk (bs.1.qL.length - bs.2) bs.1.stagingL }
    else bs.1

/-- Initial state: InitializeParams sets prevQ, the probabilities and the
caps pCmax = min(1/k^2, 1), pLmax = 1. The remaining initial values
(empty queues, zero counters and deficits, base probability 0) are the
member initializers of the header file, which is not among the provided
sources; they follow the spec data model (section 3). -/
def initState (cfg : Config) : QState :=
  { qC := [], qL := [], stagingC := [], stagingL := []
    baseProb := 0, pCL := 0, pC := 0, pL := 0
    pCmax := min (1 / (cfg.k * cfg.k)) 1, pLmax := 1
    prevQ := 0, l4sCount := 0, classicCount := 0
    sched := ⟨0, 0, false, false⟩
    cLatencySample := 0, lLatencySample := 0, cBytesSample := 0
    drops := [] }

/-- States reachable through the external entry points of the discipline:
enqueue, dequeue, the pending-dequeue callback and the PI2 timer, at
arbitrary times and with arbitrary upstream items. -/
inductive Reachable (cfg : Config) : QState → Prop where
  | init : Reachable cfg (initState cfg)
  | enqueue : ∀ (item : Item) (s : QState), Reachable cfg s →
      Reachable cfg (DoEnqueue cfg item s).2
  | dequeue : ∀ (now : Int) (s : QState), Reachable cfg s →
      Reachable cfg (DoDequeue cfg now s).2
  | update : ∀ (now : Int) (s : QState), Reachable cfg s →
      Reachable cfg (DualPi2Update cfg now s)
  | pending : ∀ (now : Int) (stopped : Bool) (pendingBytes : Nat) (s : QState),
      Reachable cfg s → Reachable cfg (PendingDequeueCallback cfg now stopped pendingBytes s)

/-- The probability and counter bounds the development tracks as one
invariant (spec section 3, invariant 2, with the pC bound corrected to 1). -/
def Inv (s : QState) : Prop :=
  0 ≤ s.baseProb ∧ s.baseProb ≤ 1 ∧
  0 ≤ s.pC ∧ s.pC ≤ 1 ∧
  0 ≤ s.pCL ∧ s.pCL ≤ 1 ∧
  0 ≤ s.l4sCount ∧ s.l4sCount ≤ 1 ∧
  0 ≤ s.classicCount ∧ s.classicCount ≤ 1

/-- Default attribute values of GetTypeId (times in ns), with the MTU
auto-configured from a standard 1500-byte device as InitializeParams does. -/
def defaultConfig : Config :=
  { mtu := 1500, alpha := 0.15, beta := 3
    target := 15000000, minTh := 800000, range := 400000
    k := 2, schedulingWeight := 9, drrQuantum := 1500
    queueLimit := 1562500, aggBufferLimit := 0
    disableLaqm := false, enableWifiClassicLatencyEstimator := false }

/-- A 100-byte ECT(1) packet (low DS bits 01), timestamped 0. -/
def itemL : Item := ⟨100, 0, some 1⟩

/-- A 1500-byte Not-ECT packet, timestamped 0. -/
def itemC : Item := ⟨1500, 0, some 0⟩

/-- A 100-byte Not-ECT packet, timestamped 0. -/
def itemSmallC : Item := ⟨100, 0, some 0⟩

/-- Default configuration with DrrQuantum 100 and SchedulingWeight 1 (both
settable attributes, the weight checker admits any value at least 1). -/
def cfgQ : Config := { defaultConfig with drrQuantum := 100, schedulingWeight := 1 }

/-- Two ECT(1) packets and one Classic packet enqueued at time 0. -/
def sEnq3 : QState :=
  (DoEnqueue cfgQ itemC
    (DoEnqueue cfgQ itemL (DoEnqueue cfgQ itemL (initState cfgQ)).2).2).2

/-- State after one ordinary dequeue from sEnq3: the 100-byte L4S packet
was served, consuming the whole L deficit of the round while both classes
remain in the round mask (llDef = 0, cDef = 100, both mask bits set). -/
def sDeq1 : QState := (DoDequeue cfgQ 0 sEnq3).2

/-- The scheduler state reached from sDeq1 after one failing L4S attempt
under eligibility (Classic ineligible): a fixed point of the loop body. -/
def sStuckFix : SchedSt := ⟨0, 100, false, true⟩

/-- sEnq3 written out as a record literal. -/
def sEnq3Lit : QState :=
  { qC := [itemC], qL := [itemL, itemL], stagingC := [], stagingL := []
    baseProb := 0, pCL := 0, pC := 0, pL := 0, pCmax := 1 / 4, pLmax := 1
    prevQ := 0, l4sCount := 0, classicCount := 0
    sched := ⟨0, 0, false, false⟩
    cLatencySample := 0, lLatencySample := 0, cBytesSample := 0, drops := [] }

/-- sDeq1 written out as a record literal: one L4S packet served, the L
deficit exhausted, both classes still in the round mask. -/
def sDeq1Lit : QState :=
  { sEnq3Lit with qL := [itemL], sched := ⟨0, 100, true, true⟩ }

/-- Reachable state with the base probability saturated at 1: one Classic
packet enqueued at time 0, PI2 update firing at t = 1 s (head sojourn 1 s
makes the increment alpha*(1 - 0.015) + beta*1 far exceed 1). -/
def sProbOne : QState :=
  DualPi2Update defaultConfig 1000000000
    (DoEnqueue defaultConfig itemSmallC (initState defaultConfig)).2

/-- Classic packets of 1000, 2000 and 1500 bytes for the 2-MTU heuristic
counterexample. -/
def pk1 : Item := ⟨1000, 0, some 0⟩

/-- See pk1. -/
def pk2 : Item := ⟨2000, 0, some 0⟩

/-- See pk1. -/
def pk3 : Item := ⟨1500, 0, some 0⟩

/-- Three Classic packets queued, then the PI2 update at t = 1 s drives
pC to 1 (at or above pCmax = 1/4), so the Classic drop loop drops every
popped packet. -/
def sOverC : QState :=
  DualPi2Update defaultConfig 1000000000
    (DoEnqueue defaultConfig pk3
      (DoEnqueue defaultConfig pk2
        (DoEnqueue defaultConfig pk1 (initState defaultConfig)).2).2).2

/-- sOverC written out as a record literal. -/
def sOverCLit : QState :=
  { qC := [pk1, pk2, pk3], qL := [], stagingC := [], stagingL := []
    baseProb := 1, pCL := 1, pC := 1, pL := 0, pCmax := 1 / 4, pLmax := 1
    prevQ := 1000000000, l4sCount := 0, classicCount := 0
    sched := ⟨0, 0, false, false⟩
    cLatencySample := 0, lLatencySample := 0, cBytesSample := 0, drops := [] }

/-- The state left behind by the Classic dequeue call made from sOverC:
all three packets dropped (pC = 1 at or above pCmax on every loop
iteration), including pk2, which was popped with only 1500 bytes (fewer
than 2 MTU) left behind it. -/
def sOverCDropEnd : QState :=
  { qC := [], qL := [], stagingC := [], stagingL := []
    baseProb := 1, pCL := 1, pC := 1, pL := 0, pCmax := 1 / 4, pLmax := 1
    prevQ := 1000000000, l4sCount := 0, classicCount := 1
    sched := ⟨0, 500, false, true⟩
    cLatencySample := 0, lLatencySample := 0, cBytesSample := 0
    drops := [(pk1, DropReason.unforcedClassicDrop), (pk2, DropReason.unforcedClassicDrop),
              (pk3, DropReason.unforcedClassicDrop)] }

theorem recur_bounds (c p : Rat) (hc0 : 0 ≤ c) (hc1 : c ≤ 1) (hp0 : 0 ≤ p) (hp1 : p ≤ 1) :
    0 ≤ (Recur c p).2 ∧ (Recur c p).2 ≤ 1 := by
  unfold Recur
  dsimp only
  split
  case isTrue h => dsimp only; exact ⟨by linarith, by linarith⟩
  case isFalse h => dsimp only; exact ⟨by linarith, by linarith⟩

theorem laqm_bounds (cfg : Config) (d : Int) : 0 ≤ Laqm cfg d ∧ Laqm cfg d ≤ 1 := by
  unfold Laqm
  split_ifs with h1 h2 h3
  · exact ⟨le_refl 0, zero_le_one⟩
  · exact ⟨zero_le_one, le_refl 1⟩
  · have hd0 : (0 : Int) < d - cfg.minTh := by omega
    have hdr : d - cfg.minTh < cfg.range := by omega
    have hd0Q : (0 : Rat) < ((d - cfg.minTh : Int) : Rat) := by exact_mod_cast hd0
    have hrQ : (0 : Rat) < ((cfg.range : Int) : Rat) := by
      exact_mod_cast lt_trans hd0 hdr
    constructor
    · exact div_nonneg (le_of_lt hd0Q) (le_of_lt hrQ)
    · rw [div_le_one hrQ]
      exact_mod_cast le_of_lt hdr
  · exact ⟨le_refl 0, zero_le_one⟩

theorem clamp_nonneg (x : Rat) : 0 ≤ min (max x 0) 1 :=
  le_min (le_max_right x 0) zero_le_one

theorem clamp_le_one (x : Rat) : min (max x 0) 1 ≤ 1 := min_le_right _ 1

/-- C9 counterexample: at counter value 2 (above the [0,1] operating
range), Recur with zero likelihood triggers and decrements the counter,
contradicting the claim that it always returns false and leaves the
counter unchanged. -/
theorem recur_zero_triggers_above_one :
    (Recur 2 0).1 = true ∧ (Recur 2 0).2 ≠ 2 := by
  unfold Recur
  norm_num

/-- C9 (amended): for every counter value at most 1 (which covers both
fractional counters of the discipline, see the C10 invariant), Recur with
likelihood 0 returns false and leaves the counter unchanged. -/
theorem recur_zero_of_le_one (c : Rat) (hc : c ≤ 1) : Recur c 0 = (false, c) := by
  unfold Recur
  dsimp only
  rw [add_zero, if_neg (by linarith)]

/-- Witness for recur_zero_of_le_one at counter 1/2. -/
theorem recur_zero_of_le_one_witness :
    (1 / 2 : Rat) ≤ 1 ∧ Recur (1 / 2) 0 = (false, 1 / 2) :=
  ⟨by norm_num, recur_zero_of_le_one (1 / 2) (by norm_num)⟩

/-- C3: enqueue fails with FORCED_DROP exactly when the shared byte pool
would overflow (bytes of both live queues plus the item size beyond the
queue limit); on failure the only state change is the recorded drop; on
success the item is appended to exactly one of the two FIFO queues. -/
theorem enqueue_tail_drop (cfg : Config) (item : Item) (s : QState) :
    ((DoEnqueue cfg item s).1 = false ↔
      cfg.queueLimit < bytesOf s.qC + bytesOf s.qL + item.size) ∧
    ((DoEnqueue cfg item s).1 = false →
      (DoEnqueue cfg item s).2 = { s with drops := s.drops ++ [(item, DropReason.forcedDrop)] }) ∧
    ((DoEnqueue cfg item s).1 = true →
      (DoEnqueue cfg item s).2 = { s with qL := s.qL ++ [item] } ∨
      (DoEnqueue cfg item s).2 = { s with qC := s.qC ++ [item] }) := by
  unfold DoEnqueue
  split_ifs with h1 h2 <;> simp [h1]

/-- Witness for enqueue_tail_drop: a 1500-byte packet on the empty initial
state is accepted (the success hypothesis discharged by evaluation) and
appended to one of the two queues. -/
theorem enqueue_tail_drop_witness :
    (DoEnqueue defaultConfig itemC (initState defaultConfig)).2 =
      { initState defaultConfig with qL := (initState defaultConfig).qL ++ [itemC] } ∨
    (DoEnqueue defaultConfig itemC (initState defaultConfig)).2 =
      { initState defaultConfig with qC := (initState defaultConfig).qC ++ [itemC] } :=
  (enqueue_tail_drop defaultConfig itemC (initState defaultConfig)).2.2 (by decide)

theorem isL4s_iff (item : Item) :
    IsL4s item = true ↔ ∃ t, item.dsField = some t ∧ (t % 4 = 1 ∨ t % 4 = 3) := by
  unfold IsL4s
  cases h : item.dsField with
  | none => simp
  | some t => simp [Nat.beq_eq_true_eq]

/-- C4: an accepted item goes to the L4S queue exactly when its DS field is
readable and its low two ECN bits are 01 (ECT(1)) or 11 (CE); every other
accepted item, including ECT(0), Not-ECT and unreadable DS fields, goes to
the Classic queue. -/
theorem enqueue_classification (cfg : Config) (item : Item) (s : QState)
    (hfit : bytesOf s.qC + bytesOf s.qL + item.size ≤ cfg.queueLimit) :
    (((DoEnqueue cfg item s).2.qL = s.qL ++ [item] ∧ (DoEnqueue cfg item s).2.qC = s.qC) ↔
      ∃ t, item.dsField = some t ∧ (t % 4 = 1 ∨ t % 4 = 3)) ∧
    (((DoEnqueue cfg item s).2.qC = s.qC ++ [item] ∧ (DoEnqueue cfg item s).2.qL = s.qL) ↔
      ¬ ∃ t, item.dsField = some t ∧ (t % 4 = 1 ∨ t % 4 = 3)) := by
  rw [← isL4s_iff]
  unfold DoEnqueue
  rw [if_neg (not_lt.mpr hfit)]
  have hL : s.qL ++ [item] ≠ s.qL := by
    intro hEq
    have := congrArg List.length hEq
    simp at this
  have hC : s.qC ++ [item] ≠ s.qC := by
    intro hEq
    have := congrArg List.length hEq
    simp at this
  cases hb : IsL4s item <;> simp [hL, hC]

/-- Witness for enqueue_classification: an ECT(1) packet (DS byte 1) on the
empty initial state is routed to the L4S queue, the fit hypothesis
discharged by evaluation. -/
theorem enqueue_classification_witness :
    (DoEnqueue defaultConfig itemL (initState defaultConfig)).2.qL =
      (initState defaultConfig).qL ++ [itemL] ∧
    (DoEnqueue defaultConfig itemL (initState defaultConfig)).2.qC =
      (initState defaultConfig).qC :=
  ((enqueue_classification defaultConfig itemL (initState defaultConfig) (by decide)).1).mpr
    ⟨1, rfl, Or.inl rfl⟩

/-- C2: every firing of the PI2 timer computes exactly the update described
by the spec: current_q = max(cQ, lQ) with cQ and lQ the head-of-line
sojourn times (0 on empty queues; cQ replaced by the estimator expression
min(max(c_latency_sample, l_latency_sample),
c_bytes_sample*target/agg_buffer_limit) when the Wi-Fi latency estimator is
enabled); base_prob incremented by alpha*(current_q - target) +
beta*(current_q - prev_q) in seconds and clamped to [0,1]; then
p_CL = min(k*base_prob, 1), p_C = base_prob^2, and prev_q = current_q. -/
theorem update_matches_spec (cfg : Config) (now : Int) (s : QState) :
    DualPi2Update cfg now s = PiUpdateSpec cfg now s := by
  unfold DualPi2Update PiUpdateSpec clamp01 secondsOf
  have harith : ∀ curQ : Int,
      s.baseProb + cfg.alpha * (((curQ - cfg.target : Int) : Rat) / 1000000000)
        + cfg.beta * (((curQ - s.prevQ : Int) : Rat) / 1000000000) =
      s.baseProb + cfg.alpha * ((curQ : Rat) / 1000000000 - (cfg.target : Rat) / 1000000000)
        + cfg.beta * ((curQ : Rat) / 1000000000 - (s.prevQ : Rat) / 1000000000) := by
    intro curQ
    push_cast
    ring
  simp only [QState.mk.injEq, harith, mul_comm]

/-- C5: when p_CL is below p_L_max (the normal regime), a dequeue from the
L4S queue never drops: the popped head is returned, possibly CE-marked, and
no drop is recorded; any AQM drop in this path implies overload
(p_L_max at most p_CL), and in overload the popped head is dropped exactly
when Recur(count_L, p_C) - driven by the Classic drop probability -
triggers. -/
theorem l4s_no_drop_below_overload (cfg : Config) (now : Int) (s : QState)
    (hd : Item) (tl : List Item) (hq : s.qL = hd :: tl) :
    (s.pCL < s.pLmax →
      (DequeueFromL4sQueue cfg now s).droppedItems = [] ∧
      (DequeueFromL4sQueue cfg now s).state.drops = s.drops ∧
      ((DequeueFromL4sQueue cfg now s).item = some hd ∨
        (DequeueFromL4sQueue cfg now s).item = some (MarkItem hd).1)) ∧
    ((DequeueFromL4sQueue cfg now s).droppedItems ≠ [] → s.pLmax ≤ s.pCL) ∧
    (s.pLmax ≤ s.pCL →
      ((Recur s.l4sCount s.pC).1 = true ↔ hd ∈ (DequeueFromL4sQueue cfg now s).droppedItems)) := by
  unfold DequeueFromL4sQueue
  rw [hq]
  simp only [List.length_cons]
  rw [DeqLAux]
  rw [hq]
  dsimp only
  by_cases hreg : s.pCL < s.pLmax
  · rw [if_pos hreg]
    refine ⟨fun _ => ?_, fun hne => ?_, fun hover => absurd hreg (not_lt.mpr hover)⟩
    · by_cases hrc : (Recur s.l4sCount (min (max (if 1 < tl.length then Laqm cfg (now - hd.timestamp) else 0) s.pCL) 1)).1
      · rw [if_pos hrc]
        exact ⟨rfl, rfl, Or.inr rfl⟩
      · rw [if_neg hrc]
        exact ⟨rfl, rfl, Or.inl rfl⟩
    · exfalso
      apply hne
      by_cases hrc : (Recur s.l4sCount (min (max (if 1 < tl.length then Laqm cfg (now - hd.timestamp) else 0) s.pCL) 1)).1
      · rw [if_pos hrc]
      · rw [if_neg hrc]
  · rw [if_neg hreg]
    refine ⟨fun hlt => absurd hlt hreg, fun _ => not_lt.mp hreg, fun _ => ?_⟩
    by_cases hrc1 : (Recur s.l4sCount s.pC).1
    · rw [if_pos hrc1]
      simp [hrc1]
    · rw [if_neg hrc1]
      by_cases hrc2 : (Recur (Recur s.l4sCount s.pC).2 s.pCL).1
      · rw [if_pos hrc2]
        simp [hrc1]
      · rw [if_neg hrc2]
        simp [hrc1]

/-- Witness for l4s_no_drop_below_overload: the state after one ECT(1)
enqueue is in the normal regime (p_CL = 0 below p_L_max = 1, discharged by
evaluation), so the dequeue drops nothing and returns the head, possibly
marked. -/
theorem l4s_no_drop_below_overload_witness :
    (DequeueFromL4sQueue defaultConfig 0
        (DoEnqueue defaultConfig itemL (initState defaultConfig)).2).droppedItems = [] ∧
    (DequeueFromL4sQueue defaultConfig 0
        (DoEnqueue defaultConfig itemL (initState defaultConfig)).2).state.drops =
      (DoEnqueue defaultConfig itemL (initState defaultConfig)).2.drops ∧
    ((DequeueFromL4sQueue defaultConfig 0
        (DoEnqueue defaultConfig itemL (initState defaultConfig)).2).item = some itemL ∨
      (DequeueFromL4sQueue defaultConfig 0
        (DoEnqueue defaultConfig itemL (initState defaultConfig)).2).item =
        some (MarkItem itemL).1) :=
  (l4s_no_drop_below_overload defaultConfig 0
      (DoEnqueue defaultConfig itemL (initState defaultConfig)).2 itemL [] (by decide)).1
    (by norm_num [DoEnqueue, initState, defaultConfig, bytesOf, IsL4s, itemL])

/-- C6 (amended): the 2-MTU protection applies to the first packet popped
per call: when fewer than 2*MTU bytes remain in the Classic queue after the
initial pop, that packet is returned at once, with no drop, no Recur side
effect and no further state change. Packets popped inside the subsequent
drop loop are not protected (see the counterexample). -/
theorem classic_first_pop_protected (cfg : Config) (now : Int) (s : QState)
    (hd : Item) (tl : List Item) (hq : s.qC = hd :: tl)
    (hbytes : bytesOf tl < 2 * cfg.mtu) :
    DequeueFromClassicQueue cfg now s =
      ⟨some hd, false, [], { s with qC := tl }⟩ := by
  unfold DequeueFromClassicQueue
  rw [hq]
  dsimp only
  rw [if_pos hbytes]

/-- Witness for classic_first_pop_protected: one 1500-byte Classic packet
alone in the queue is returned untouched (0 bytes remain, below 2 MTU). -/
theorem classic_first_pop_protected_witness :
    (DoEnqueue defaultConfig itemC (initState defaultConfig)).2.qC = itemC :: [] ∧
    bytesOf [] < 2 * defaultConfig.mtu ∧
    DequeueFromClassicQueue defaultConfig 5 (DoEnqueue defaultConfig itemC (initState defaultConfig)).2 =
      ⟨some itemC, false, [],
        { (DoEnqueue defaultConfig itemC (initState defaultConfig)).2 with qC := [] }⟩ :=
  ⟨by decide, by decide,
    classic_first_pop_protected defaultConfig 5
      (DoEnqueue defaultConfig itemC (initState defaultConfig)).2 itemC [] (by decide) (by decide)⟩

theorem schedulerLoop_sel (cfg : Config) (eC eL : Bool) (hC hL : Nat) (st : SchedSt)
    (c : TrafficClass) (st2 : SchedSt) (n : Nat) (hn : n ≠ 0)
    (h : schedStep cfg eC eL hC hL st = StepRes.sel c st2) :
    schedulerLoop cfg eC eL hC hL n st = (some c, st2) := by
  obtain ⟨m, rfl⟩ := Nat.exists_eq_succ_of_ne_zero hn
  rw [schedulerLoop, h]

theorem sOverC_eval : sOverC = sOverCLit := by
  unfold sOverC sOverCLit DoEnqueue DualPi2Update initState defaultConfig pk1 pk2 pk3
  norm_num [bytesOf, IsL4s]

theorem sOverC_schedStep :
    schedStep defaultConfig true true 1000 0 ⟨0, 0, false, false⟩ =
      StepRes.sel TrafficClass.classic ⟨0, 500, false, true⟩ := by
  norm_num [schedStep, schedRound, schedTryL, schedTryC, defaultConfig]

theorem sOverC_sched : Scheduler defaultConfig true true sOverCLit =
    (some TrafficClass.classic, ⟨0, 500, false, true⟩) := by
  unfold Scheduler
  rw [show holOf sOverCLit.qL = 0 from rfl, show holOf sOverCLit.qC = 1000 from rfl]
  rw [if_neg (by norm_num [sOverCLit])]
  exact schedulerLoop_sel _ _ _ _ _ _ _ _ _ (by norm_num [schedulerCap]) sOverC_schedStep

theorem sOverC_deqC :
    DequeueFromClassicQueue defaultConfig 1000000000
        { sOverCLit with sched := ⟨0, 500, false, true⟩ } =
      ⟨none, true, [pk1, pk2, pk3], sOverCDropEnd⟩ := by
  norm_num [DequeueFromClassicQueue, DeqCAux, Recur, bytesOf, sOverCLit, sOverCDropEnd,
    pk1, pk2, pk3, defaultConfig]

/-- C6 counterexample: in the reachable state sOverC (pC = 1 at or above
pCmax = 1/4, Classic queue [pk1, pk2, pk3] of 1000, 2000, 1500 bytes), one
call into the Classic dequeue path pops pk2 while only 1500 bytes (fewer
than 2*MTU = 3000) remain after that pop, yet pk2 is dropped by the AQM
loop instead of being returned; the claim demands it be returned
immediately. The 2-MTU check is applied to the first pop only. -/
theorem classic_drop_loop_skips_two_mtu_check :
    Reachable defaultConfig sOverC ∧
    sOverC.qC = [pk1, pk2, pk3] ∧
    bytesOf [pk3] < 2 * defaultConfig.mtu ∧
    (DoDequeue defaultConfig 1000000000 sOverC).1 = none ∧
    (DoDequeue defaultConfig 1000000000 sOverC).2.drops =
      [(pk1, DropReason.unforcedClassicDrop), (pk2, DropReason.unforcedClassicDrop),
       (pk3, DropReason.unforcedClassicDrop)] := by
  refine ⟨?_, ?_, by decide, ?_⟩
  · exact Reachable.update _ _
      (Reachable.enqueue _ _ (Reachable.enqueue _ _ (Reachable.enqueue _ _ Reachable.init)))
  · rw [sOverC_eval]
    rfl
  · rw [sOverC_eval]
    have h0 : DoDequeue defaultConfig 1000000000 sOverCLit =
        DoDequeueLoop defaultConfig 1000000000 3 sOverCLit := rfl
    have h1 : DoDequeueLoop defaultConfig 1000000000 3 sOverCLit =
        DoDequeueLoop defaultConfig 1000000000 2 sOverCDropEnd := by
      rw [show (3 : Nat) = 2 + 1 from rfl]
      simp only [DoDequeueLoop]
      rw [if_neg (by norm_num [sOverCLit, bytesOf, pk1, pk2, pk3]), sOverC_sched]
      dsimp only
      rw [sOverC_deqC]
    have h2 : DoDequeueLoop defaultConfig 1000000000 2 sOverCDropEnd = (none, sOverCDropEnd) := by
      rw [show (2 : Nat) = 1 + 1 from rfl]
      simp only [DoDequeueLoop]
      rw [if_pos (by norm_num [sOverCDropEnd, bytesOf])]
    rw [h0, h1, h2]
    norm_num [sOverCDropEnd]

theorem inv_init (cfg : Config) : Inv (initState cfg) := by
  norm_num [Inv, initState]

theorem inv_enqueue (cfg : Config) (item : Item) (s : QState) (h : Inv s) :
    Inv (DoEnqueue cfg item s).2 := by
  unfold DoEnqueue
  split_ifs <;> exact h

theorem inv_update (cfg : Config) (now : Int) (s : QState) (hk : 0 ≤ cfg.k) (h : Inv s) :
    Inv (DualPi2Update cfg now s) := by
  obtain ⟨_, _, _, _, _, _, h7, h8, h9, h10⟩ := h
  exact ⟨clamp_nonneg _, clamp_le_one _, mul_self_nonneg _,
    mul_le_one₀ (clamp_le_one _) (clamp_nonneg _) (clamp_le_one _),
    le_min (mul_nonneg (clamp_nonneg _) hk) zero_le_one, min_le_right _ 1,
    h7, h8, h9, h10⟩

theorem inv_deqLAux (cfg : Config) (now : Int) :
    ∀ (fuel : Nat) (s : QState), Inv s → Inv (DeqLAux cfg now fuel s).state := by
  intro fuel
  induction fuel with
  | zero => intro s h; exact h
  | succ n ih =>
    intro s h
    obtain ⟨h1, h2, h3, h4, h5, h6, h7, h8, h9, h10⟩ := h
    simp only [DeqLAux]
    split
    · exact ⟨h1, h2, h3, h4, h5, h6, h7, h8, h9, h10⟩
    next hd tl heq =>
      by_cases hreg : s.pCL < s.pLmax
      · rw [if_pos hreg]
        split
        · have hpp := laqm_bounds cfg (now - hd.timestamp)
          have hpl0 : 0 ≤ min (max (Laqm cfg (now - hd.timestamp)) s.pCL) 1 :=
            le_min (le_trans hpp.1 (le_max_left _ _)) zero_le_one
          have hrc := recur_bounds s.l4sCount _ h7 h8 hpl0 (min_le_right _ 1)
          split <;> exact ⟨h1, h2, h3, h4, h5, h6, hrc.1, hrc.2, h9, h10⟩
        · have hpl0 : 0 ≤ min (max (0 : Rat) s.pCL) 1 :=
            le_min (le_max_left _ _) zero_le_one
          have hrc := recur_bounds s.l4sCount _ h7 h8 hpl0 (min_le_right _ 1)
          split <;> exact ⟨h1, h2, h3, h4, h5, h6, hrc.1, hrc.2, h9, h10⟩
      · rw [if_neg hreg]
        have hrc1 := recur_bounds s.l4sCount s.pC h7 h8 h3 h4
        split
        · exact ih _ ⟨h1, h2, h3, h4, h5, h6, hrc1.1, hrc1.2, h9, h10⟩
        · have hrc2 := recur_bounds (Recur s.l4sCount s.pC).2 s.pCL hrc1.1 hrc1.2 h5 h6
          split <;> exact ⟨h1, h2, h3, h4, h5, h6, hrc2.1, hrc2.2, h9, h10⟩

theorem inv_deqL (cfg : Config) (now : Int) (s : QState) (h : Inv s) :
    Inv (DequeueFromL4sQueue cfg now s).state :=
  inv_deqLAux cfg now _ s h

theorem inv_deqCAux (cfg : Config) (now : Int) :
    ∀ (fuel : Nat) (hd : Item) (dr : Bool) (s : QState), Inv s →
      Inv (DeqCAux cfg now fuel hd dr s).state := by
  intro fuel
  induction fuel with
  | zero => intro hd dr s h; exact h
  | succ n ih =>
    intro hd dr s h
    obtain ⟨h1, h2, h3, h4, h5, h6, h7, h8, h9, h10⟩ := h
    have hrc := recur_bounds s.classicCount s.pC h9 h10 h3 h4
    simp only [DeqCAux]
    split
    · split
      · exact ⟨h1, h2, h3, h4, h5, h6, h7, h8, hrc.1, hrc.2⟩
      · exact ih _ _ _ ⟨h1, h2, h3, h4, h5, h6, h7, h8, hrc.1, hrc.2⟩
    · exact ⟨h1, h2, h3, h4, h5, h6, h7, h8, hrc.1, hrc.2⟩

theorem inv_deqC (cfg : Config) (now : Int) (s : QState) (h : Inv s) :
    Inv (DequeueFromClassicQueue cfg now s).state := by
  unfold DequeueFromClassicQueue
  split
  · exact h
  · split
    · exact h
    · exact inv_deqCAux cfg now _ _ _ _ h

theorem inv_doDequeueLoop (cfg : Config) (now : Int) :
    ∀ (fuel : Nat) (s : QState), Inv s → Inv (DoDequeueLoop cfg now fuel s).2 := by
  intro fuel
  induction fuel with
  | zero => intro s h; exact h
  | succ n ih =>
    intro s h
    simp only [DoDequeueLoop]
    split
    · exact h
    · split
      next st heq =>
        have h2 := inv_deqL cfg now { s with sched := st } h
        split
        · exact h2
        · exact ih _ h2
      next st heq =>
        have h2 := inv_deqC cfg now { s with sched := st } h
        split
        · exact h2
        · exact ih _ h2
      next st heq => exact h

theorem inv_dequeue (cfg : Config) (now : Int) (s : QState) (h : Inv s) :
    Inv (DoDequeue cfg now s).2 := by
  unfold DoDequeue
  split
  · exact h
  · split
    · exact h
    · exact inv_doDequeueLoop cfg now _ s h

theorem inv_batchLoop (cfg : Config) (now : Int) :
    ∀ (fuel left mc : Nat) (s : QState), Inv s → Inv (BatchLoop cfg now fuel left mc s).1 := by
  intro fuel
  induction fuel with
  | zero => intro left mc s h; exact h
  | succ n ih =>
    intro left mc s h
    simp only [BatchLoop]
    split
    · exact h
    · split
      next st heq =>
        have h2 := inv_deqL cfg now { s with sched := st } h
        split
        · exact ih _ _ _ h2
        · exact ih _ _ _ h2
      next st heq =>
        have h2 := inv_deqC cfg now { s with sched := st } h
        split
        · exact ih _ _ _ h2
        · exact ih _ _ _ h2
      next st heq => exact h

theorem inv_pending (cfg : Config) (now : Int) (stopped : Bool) (pendingBytes : Nat)
    (s : QState) (h : Inv s) : Inv (PendingDequeueCallback cfg now stopped pendingBytes s) := by
  unfold PendingDequeueCallback
  have hrs : Inv (refreshSamples now s) := h
  dsimp only
  split_ifs
  · exact hrs
  · exact hrs
  · exact inv_batchLoop cfg now 1000 pendingBytes 0 (refreshSamples now s) hrs
  · exact inv_batchLoop cfg now 1000 pendingBytes 0 (refreshSamples now s) hrs

theorem inv_reachable (cfg : Config) (hk : 0 ≤ cfg.k) (s : QState) (hr : Reachable cfg s) :
    Inv s := by
  induction hr with
  | init => exact inv_init cfg
  | enqueue item s hs ih => exact inv_enqueue cfg item s ih
  | dequeue now s hs ih => exact inv_dequeue cfg now s ih
  | update now s hs ih => exact inv_update cfg now s hk ih
  | pending now stopped pendingBytes s hs ih => exact inv_pending cfg now stopped pendingBytes s ih

/-- C1 (amended): in every reachable state, with a nonnegative coupling
factor, the derived probabilities satisfy 0 ≤ p_C ≤ 1 and 0 ≤ p_CL ≤ 1.
The bound p_C ≤ min(1/k^2, 1) claimed by the spec does not hold: the code
clamps base_prob to [0,1] only, so p_C = base_prob^2 can reach 1, above
p_C_max = 1/4 for the default k = 2 (see the counterexample). -/
theorem reachable_prob_bounds (cfg : Config) (s : QState) (hk : 0 ≤ cfg.k)
    (hr : Reachable cfg s) :
    0 ≤ s.pC ∧ s.pC ≤ 1 ∧ 0 ≤ s.pCL ∧ s.pCL ≤ 1 := by
  obtain ⟨_, _, h3, h4, h5, h6, _, _, _, _⟩ := inv_reachable cfg hk s hr
  exact ⟨h3, h4, h5, h6⟩

/-- Witness for reachable_prob_bounds at the initial state of the default
configuration. -/
theorem reachable_prob_bounds_witness :
    0 ≤ (initState defaultConfig).pC ∧ (initState defaultConfig).pC ≤ 1 ∧
    0 ≤ (initState defaultConfig).pCL ∧ (initState defaultConfig).pCL ≤ 1 :=
  reachable_prob_bounds defaultConfig (initState defaultConfig)
    (by norm_num [defaultConfig]) Reachable.init

/-- C1 counterexample: sProbOne is reachable (one Classic enqueue, then the
PI2 timer firing after a one-second head-of-line sojourn) and its p_C is 1,
above the claimed bound min(1/k^2, 1) = 1/4 for the default coupling
factor k = 2. -/
theorem pC_exceeds_claimed_cap :
    Reachable defaultConfig sProbOne ∧
    ¬ (sProbOne.pC ≤ min (1 / (defaultConfig.k * defaultConfig.k)) 1) := by
  constructor
  · exact Reachable.update _ _ (Reachable.enqueue _ _ Reachable.init)
  · have h : sProbOne.pC = 1 := by
      unfold sProbOne DoEnqueue DualPi2Update initState defaultConfig itemSmallC
      norm_num [bytesOf, IsL4s]
    rw [h]
    norm_num [defaultConfig]

/-- C10: Recur maps a counter in [0,1] with a likelihood in [0,1] back into
[0,1]; and since every likelihood the discipline passes to Recur (p_L, p_C,
p_CL) is clamped to [0,1] (given a nonnegative coupling factor), both
fractional counters remain in [0,1] in every reachable state, hence across
every dequeue and pending-dequeue operation. -/
theorem recur_counter_interval :
    (∀ c p : Rat, 0 ≤ c → c ≤ 1 → 0 ≤ p → p ≤ 1 →
      0 ≤ (Recur c p).2 ∧ (Recur c p).2 ≤ 1) ∧
    (∀ (cfg : Config) (s : QState), 0 ≤ cfg.k → Reachable cfg s →
      0 ≤ s.l4sCount ∧ s.l4sCount ≤ 1 ∧ 0 ≤ s.classicCount ∧ s.classicCount ≤ 1) := by
  constructor
  · exact recur_bounds
  · intro cfg s hk hr
    obtain ⟨_, _, _, _, _, _, h7, h8, h9, h10⟩ := inv_reachable cfg hk s hr
    exact ⟨h7, h8, h9, h10⟩

/-- Witness for recur_counter_interval: Recur at counter 1/2 and likelihood
3/4, and the counters of the initial state. -/
theorem recur_counter_interval_witness :
    (0 ≤ (Recur (1 / 2) (3 / 4)).2 ∧ (Recur (1 / 2) (3 / 4)).2 ≤ 1) ∧
    (0 ≤ (initState defaultConfig).l4sCount ∧ (initState defaultConfig).l4sCount ≤ 1 ∧
      0 ≤ (initState defaultConfig).classicCount ∧
      (initState defaultConfig).classicCount ≤ 1) :=
  ⟨recur_counter_interval.1 (1 / 2) (3 / 4) (by norm_num) (by norm_num) (by norm_num)
      (by norm_num),
    recur_counter_interval.2 defaultConfig (initState defaultConfig)
      (by norm_num [defaultConfig]) Reachable.init⟩

theorem countECT1_cons (x : Item) (l : List Item) :
    countECT1 (x :: l) = (if isECT1Item x then 1 else 0) + countECT1 l := by
  unfold countECT1
  rw [List.filter_cons]
  split_ifs <;> simp [Nat.add_comm]

theorem markWalk_length (n : Nat) (l : List Item) : (markWalk n l).length = l.length := by
  induction l generalizing n with
  | nil => cases n <;> rfl
  | cons it rest ih =>
    cases n with
    | zero => rfl
    | succ m =>
      simp only [markWalk]
      split <;> simp [ih]

theorem markWalk_getElem (n : Nat) (l : List Item) (i : Nat) :
    (markWalk n l)[i]? = (l[i]?).map
      (fun x => if isECT1Item x = true ∧ countECT1 (l.take i) < n
        then (MarkItem x).1 else x) := by
  induction l generalizing n i with
  | nil => cases n <;> simp [markWalk]
  | cons it rest ih =>
    cases n with
    | zero =>
      simp only [markWalk, Nat.not_lt_zero, and_false, if_false]
      cases h : (it :: rest)[i]? <;> simp
    | succ m =>
      by_cases hE : isECT1Item it = true
      · simp only [markWalk, if_pos hE]
        cases i with
        | zero => simp [hE, countECT1]
        | succ j =>
          simp only [List.getElem?_cons_succ, List.take_succ_cons, countECT1_cons, if_pos hE]
          rw [ih]
          cases hrj : rest[j]? with
          | none => simp
          | some y =>
            have hiff : (countECT1 (rest.take j) < m) ↔
                (1 + countECT1 (rest.take j) < m + 1) := by omega
            simp [hiff]
      · simp only [markWalk, if_neg hE]
        cases i with
        | zero => simp [hE]
        | succ j =>
          simp only [List.getElem?_cons_succ, List.take_succ_cons, countECT1_cons, if_neg hE]
          rw [ih]
          simp

/-- C8: a pending-dequeue invocation that stages a batch (downstream
stopped and the pending bytes within what the queue disc holds) finishes by
applying the mark top-up walk to the L4S staging queue exactly when the
count of L4S packets marked inside the batch loop is below the number of
packets remaining in the live L4S queue, with remaining minus marked
further marks to make; and the walk marks, in FIFO order, precisely the
first such-many ECT(1)-bearing staged packets as CE, leaving every other
packet (already-CE and non-ECN ones included, which do not count toward the
marks) unchanged in place, stopping when the marks are exhausted or the
staging queue ends. -/
theorem pending_mark_topup (cfg : Config) (now : Int) (pendingBytes : Nat) (s : QState)
    (hpb : pendingBytes ≤ queueDiscPending (refreshSamples now s)) :
    (PendingDequeueCallback cfg now true pendingBytes s =
      (if (BatchLoop cfg now 1000 pendingBytes 0 (refreshSamples now s)).2 <
          (BatchLoop cfg now 1000 pendingBytes 0 (refreshSamples now s)).1.qL.length then
        { (BatchLoop cfg now 1000 pendingBytes 0 (refreshSamples now s)).1 with
          stagingL := markWalk
            ((BatchLoop cfg now 1000 pendingBytes 0 (refreshSamples now s)).1.qL.length -
              (BatchLoop cfg now 1000 pendingBytes 0 (refreshSamples now s)).2)
            (BatchLoop cfg now 1000 pendingBytes 0 (refreshSamples now s)).1.stagingL }
      else (BatchLoop cfg now 1000 pendingBytes 0 (refreshSamples now s)).1)) ∧
    (∀ (nMarks : Nat) (staging : List Item),
      (markWalk nMarks staging).length = staging.length) ∧
    (∀ (nMarks : Nat) (staging : List Item) (i : Nat),
      (markWalk nMarks staging)[i]? = (staging[i]?).map
        (fun x => if isECT1Item x = true ∧ countECT1 (staging.take i) < nMarks
          then (MarkItem x).1 else x)) := by
  refine ⟨?_, markWalk_length, markWalk_getElem⟩
  unfold PendingDequeueCallback
  dsimp only
  rw [if_neg (by simp), if_neg (not_lt.mpr hpb)]

/-- Witness for pending_mark_topup: the mark-preserving length property at
a one-element staging list, through the theorem instantiated at the initial
state with a zero-byte pending request. -/
theorem pending_mark_topup_witness : (markWalk 1 [itemL]).length = [itemL].length :=
  (pending_mark_topup defaultConfig 0 0 (initState defaultConfig) (Nat.zero_le _)).2.1 1 [itemL]

theorem schedTryL_cont_facts (eligL : Bool) (holL : Nat) (st st2 : SchedSt)
    (h : schedTryL eligL holL st = StepRes.cont st2) :
    st2.cDef = st.cDef ∧ st2.maskC = st.maskC ∧
    (holL ≠ 0 → st2.llDef = st.llDef) ∧
    (holL = 0 → st2.maskL = false ∧ st2.llDef = 0) ∧
    (holL ≠ 0 → eligL = true → st2.maskL = false ∧ ¬((holL : Rat) ≤ st.llDef)) := by
  unfold schedTryL at h
  by_cases h1 : holL ≠ 0 ∧ eligL = true ∧ (holL : Rat) ≤ st.llDef
  · rw [if_pos h1] at h
    exact StepRes.noConfusion h
  · rw [if_neg h1] at h
    dsimp only at h
    by_cases hz : holL = 0
    · rw [if_pos hz, if_neg (by simp [hz])] at h
      injection h with hst
      subst hst
      exact ⟨rfl, rfl, fun hne => absurd hz hne, fun _ => ⟨rfl, rfl⟩,
        fun hne _ => absurd hz hne⟩
    · rw [if_neg hz] at h
      by_cases h2 : holL ≠ 0 ∧ eligL = true
      · rw [if_pos h2] at h
        injection h with hst
        subst hst
        exact ⟨rfl, rfl, fun _ => rfl, fun hzz => absurd hzz hz,
          fun _ _ => ⟨rfl, fun hle => h1 ⟨h2.1, h2.2, hle⟩⟩⟩
      · rw [if_neg h2] at h
        injection h with hst
        subst hst
        exact ⟨rfl, rfl, fun _ => rfl, fun hzz => absurd hzz hz,
          fun hne hel => absurd ⟨hne, hel⟩ h2⟩

theorem schedTryC_cont_facts (eligC : Bool) (holC : Nat) (st st2 : SchedSt)
    (h : schedTryC eligC holC st = StepRes.cont st2) :
    st2.llDef = st.llDef ∧ st2.maskL = st.maskL ∧
    (holC ≠ 0 → st2.cDef = st.cDef) ∧
    (holC = 0 → st2.maskC = false ∧ st2.cDef = 0) ∧
    (holC ≠ 0 → eligC = true → st2.maskC = false ∧ ¬((holC : Rat) ≤ st.cDef)) := by
  unfold schedTryC at h
  by_cases h1 : holC ≠ 0 ∧ eligC = true ∧ (holC : Rat) ≤ st.cDef
  · rw [if_pos h1] at h
    exact StepRes.noConfusion h
  · rw [if_neg h1] at h
    dsimp only at h
    by_cases hz : holC = 0
    · rw [if_pos hz, if_neg (by simp [hz])] at h
      injection h with hst
      subst hst
      exact ⟨rfl, rfl, fun hne => absurd hz hne, fun _ => ⟨rfl, rfl⟩,
        fun hne _ => absurd hz hne⟩
    · rw [if_neg hz] at h
      by_cases h2 : holC ≠ 0 ∧ eligC = true
      · rw [if_pos h2] at h
        injection h with hst
        subst hst
        exact ⟨rfl, rfl, fun _ => rfl, fun hzz => absurd hzz hz,
          fun _ _ => ⟨rfl, fun hle => h1 ⟨h2.1, h2.2, hle⟩⟩⟩
      · rw [if_neg h2] at h
        injection h with hst
        subst hst
        exact ⟨rfl, rfl, fun _ => rfl, fun hzz => absurd hzz hz,
          fun hne hel => absurd ⟨hne, hel⟩ h2⟩

theorem schedRound_of_empty (cfg : Config) (st : SchedSt) (h1 : st.maskL = false)
    (h2 : st.maskC = false) :
    schedRound cfg st =
      { st with
        maskL := true
        maskC := true
        llDef := st.llDef + (cfg.drrQuantum : Rat) * cfg.schedulingWeight
        cDef := st.cDef + (cfg.drrQuantum : Rat) } := by
  unfold schedRound
  rw [if_pos ⟨h1, h2⟩]

theorem schedulerLoop_mono (cfg : Config) (eC eL : Bool) (hC hL : Nat) :
    ∀ (n m : Nat) (st : SchedSt), n ≤ m →
      (schedulerLoop cfg eC eL hC hL n st).1.isSome = true →
      (schedulerLoop cfg eC eL hC hL m st).1.isSome = true := by
  intro n
  induction n with
  | zero =>
    intro m st _ hs
    exact absurd hs (by simp [schedulerLoop])
  | succ k ih =>
    intro m st hnm hs
    obtain ⟨m2, rfl⟩ := Nat.exists_eq_succ_of_ne_zero (by omega : m ≠ 0)
    cases hstep : schedStep cfg eC eL hC hL st with
    | sel c st2 =>
      rw [schedulerLoop, hstep]
      rfl
    | cont st2 =>
      rw [schedulerLoop, hstep]
      rw [schedulerLoop, hstep] at hs
      exact ih m2 st2 (by omega) hs

theorem schedulerLoop_l4s_progress (cfg : Config) (eC eL : Bool) (hC hL : Nat)
    (hqw : 0 ≤ (cfg.drrQuantum : Rat) * cfg.schedulingWeight)
    (hLne : hL ≠ 0) (hLel : eL = true) (hCel : hC ≠ 0 → eC = true) :
    ∀ (n : Nat) (st : SchedSt), st.maskL = false → st.maskC = false →
      (hL : Rat) ≤ st.llDef + n * ((cfg.drrQuantum : Rat) * cfg.schedulingWeight) →
      (schedulerLoop cfg eC eL hC hL (n + 1) st).1.isSome = true := by
  intro n
  induction n with
  | zero =>
    intro st hmL hmC hbound
    rw [schedulerLoop]
    cases htl : schedTryL eL hL (schedRound cfg st) with
    | sel c st2 =>
      have hstep : schedStep cfg eC eL hC hL st = StepRes.sel c st2 := by
        unfold schedStep
        rw [htl]
      rw [hstep]
      rfl
    | cont st2 =>
      exfalso
      rw [schedRound_of_empty cfg st hmL hmC] at htl
      obtain ⟨_, _, _, _, hf⟩ := schedTryL_cont_facts _ _ _ _ htl
      apply (hf hLne hLel).2
      dsimp only
      push_cast at hbound ⊢
      linarith
  | succ k ih =>
    intro st hmL hmC hbound
    rw [schedulerLoop]
    cases htl : schedTryL eL hL (schedRound cfg st) with
    | sel c st2 =>
      have hstep : schedStep cfg eC eL hC hL st = StepRes.sel c st2 := by
        unfold schedStep
        rw [htl]
      rw [hstep]
      rfl
    | cont st2 =>
      have hstep : schedStep cfg eC eL hC hL st = schedTryC eC hC st2 := by
        unfold schedStep
        rw [htl]
      rw [hstep]
      rw [schedRound_of_empty cfg st hmL hmC] at htl
      obtain ⟨htlc, htlm, htld, _, hLf⟩ := schedTryL_cont_facts _ _ _ _ htl
      cases htc : schedTryC eC hC st2 with
      | sel c st3 => rfl
      | cont st3 =>
        obtain ⟨htcd, htcm, _, hc0, hcne⟩ := schedTryC_cont_facts _ _ _ _ htc
        have hmL3 : st3.maskL = false := by
          rw [htcm]
          exact (hLf hLne hLel).1
        have hmC3 : st3.maskC = false := by
          by_cases hcz : hC = 0
          · exact (hc0 hcz).1
          · exact (hcne hcz (hCel hcz)).1
        have hll3 : st3.llDef =
            st.llDef + (cfg.drrQuantum : Rat) * cfg.schedulingWeight := by
          rw [htcd, htld hLne]
        apply ih st3 hmL3 hmC3
        rw [hll3]
        push_cast at hbound ⊢
        linarith

theorem schedulerLoop_classic_progress (cfg : Config) (eC eL : Bool) (hC hL : Nat)
    (hqw : 0 ≤ (cfg.drrQuantum : Rat) * cfg.schedulingWeight)
    (hL0 : hL = 0) (hCne : hC ≠ 0) (hCel : eC = true) :
    ∀ (n : Nat) (st : SchedSt), st.maskL = false → st.maskC = false →
      (hC : Rat) ≤ st.cDef + n * (cfg.drrQuantum : Rat) →
      (schedulerLoop cfg eC eL hC hL (n + 1) st).1.isSome = true := by
  intro n
  induction n with
  | zero =>
    intro st hmL hmC hbound
    rw [schedulerLoop]
    cases htl : schedTryL eL hL (schedRound cfg st) with
    | sel c st2 =>
      have hstep : schedStep cfg eC eL hC hL st = StepRes.sel c st2 := by
        unfold schedStep
        rw [htl]
      rw [hstep]
      rfl
    | cont st2 =>
      have hstep : schedStep cfg eC eL hC hL st = schedTryC eC hC st2 := by
        unfold schedStep
        rw [htl]
      rw [hstep]
      rw [schedRound_of_empty cfg st hmL hmC] at htl
      obtain ⟨htlc, htlm, _, hl0f, _⟩ := schedTryL_cont_facts _ _ _ _ htl
      cases htc : schedTryC eC hC st2 with
      | sel c st3 => rfl
      | cont st3 =>
        exfalso
        obtain ⟨_, _, _, _, hcne⟩ := schedTryC_cont_facts _ _ _ _ htc
        apply (hcne hCne hCel).2
        rw [htlc]
        dsimp only
        push_cast at hbound ⊢
        linarith
  | succ k ih =>
    intro st hmL hmC hbound
    rw [schedulerLoop]
    cases htl : schedTryL eL hL (schedRound cfg st) with
    | sel c st2 =>
      have hstep : schedStep cfg eC eL hC hL st = StepRes.sel c st2 := by
        unfold schedStep
        rw [htl]
      rw [hstep]
      rfl
    | cont st2 =>
      have hstep : schedStep cfg eC eL hC hL st = schedTryC eC hC st2 := by
        unfold schedStep
        rw [htl]
      rw [hstep]
      rw [schedRound_of_empty cfg st hmL hmC] at htl
      obtain ⟨htlc, htlm, _, hl0f, _⟩ := schedTryL_cont_facts _ _ _ _ htl
      cases htc : schedTryC eC hC st2 with
      | sel c st3 => rfl
      | cont st3 =>
        obtain ⟨htcd, htcm, htcc, hc0, hcne⟩ := schedTryC_cont_facts _ _ _ _ htc
        have hmL3 : st3.maskL = false := by
          rw [htcm]
          exact (hl0f hL0).1
        have hmC3 : st3.maskC = false := (hcne hCne hCel).1
        have hcd3 : st3.cDef = st.cDef + (cfg.drrQuantum : Rat) := by
          rw [htcc hCne, htlc]
        apply ih st3 hmL3 hmC3
        rw [hcd3]
        push_cast at hbound ⊢
        linarith

theorem schedulerLoop_selects (cfg : Config) (eC eL : Bool) (hC hL : Nat)
    (hqw : 1 ≤ (cfg.drrQuantum : Rat) * cfg.schedulingWeight)
    (hq1 : 1 ≤ (cfg.drrQuantum : Rat))
    (hLel : hL ≠ 0 → eL = true) (hCel : hC ≠ 0 → eC = true)
    (hne : hL ≠ 0 ∨ hC ≠ 0)
    (st : SchedSt) (hd1 : 0 ≤ st.llDef) (hd2 : 0 ≤ st.cDef)
    (fuel : Nat) (hf : hL + hC + 2 ≤ fuel) :
    (schedulerLoop cfg eC eL hC hL fuel st).1.isSome = true := by
  have hqw0 : 0 ≤ (cfg.drrQuantum : Rat) * cfg.schedulingWeight :=
    le_trans zero_le_one hqw
  obtain ⟨f, rfl⟩ := Nat.exists_eq_succ_of_ne_zero (show fuel ≠ 0 by omega)
  cases hstep : schedStep cfg eC eL hC hL st with
  | sel c st2 =>
    rw [schedulerLoop, hstep]
    rfl
  | cont st2 =>
    rw [schedulerLoop, hstep]
    have hstep2 := hstep
    unfold schedStep at hstep2
    cases htl : schedTryL eL hL (schedRound cfg st) with
    | sel c st3 =>
      rw [htl] at hstep2
      exact StepRes.noConfusion hstep2
    | cont st3 =>
      rw [htl] at hstep2
      obtain ⟨hlc, hlm, hld, hlz, hlf⟩ := schedTryL_cont_facts _ _ _ _ htl
      obtain ⟨hcd, hcm, hcc, hcz, hcf⟩ := schedTryC_cont_facts _ _ _ _ hstep2
      have hmL2 : st2.maskL = false := by
        rw [hcm]
        by_cases hLz : hL = 0
        · exact (hlz hLz).1
        · exact (hlf hLz (hLel hLz)).1
      have hmC2 : st2.maskC = false := by
        by_cases hCz : hC = 0
        · exact (hcz hCz).1
        · exact (hcf hCz (hCel hCz)).1
      have hr1 : 0 ≤ (schedRound cfg st).llDef := by
        unfold schedRound
        split_ifs
        · dsimp only
          linarith
        · exact hd1
      have hr2 : 0 ≤ (schedRound cfg st).cDef := by
        unfold schedRound
        split_ifs
        · dsimp only
          linarith
        · exact hd2
      have hll3 : 0 ≤ st3.llDef := by
        by_cases hLz : hL = 0
        · rw [(hlz hLz).2]
        · rw [hld hLz]
          exact hr1
      have hcd3 : 0 ≤ st3.cDef := by
        rw [hlc]
        exact hr2
      have hll2 : 0 ≤ st2.llDef := by
        rw [hcd]
        exact hll3
      have hcd2 : 0 ≤ st2.cDef := by
        by_cases hCz : hC = 0
        · rw [(hcz hCz).2]
        · rw [hcc hCz]
          exact hcd3
      by_cases hLz : hL = 0
      · have hCne : hC ≠ 0 := by
          rcases hne with h | h
          · exact absurd hLz h
          · exact h
        have hbound : (hC : Rat) ≤ st2.cDef + hC * (cfg.drrQuantum : Rat) := by
          have h1 : (hC : Rat) * 1 ≤ (hC : Rat) * (cfg.drrQuantum : Rat) :=
            mul_le_mul_of_nonneg_left hq1 (Nat.cast_nonneg hC)
          nlinarith
        have hprog := schedulerLoop_classic_progress cfg eC eL hC hL hqw0 hLz hCne
          (hCel hCne) hC st2 hmL2 hmC2 hbound
        exact schedulerLoop_mono cfg eC eL hC hL (hC + 1) f st2 (by omega) hprog
      · have hbound : (hL : Rat) ≤ st2.llDef +
            hL * ((cfg.drrQuantum : Rat) * cfg.schedulingWeight) := by
          have h1 : (hL : Rat) * 1 ≤
              (hL : Rat) * ((cfg.drrQuantum : Rat) * cfg.schedulingWeight) :=
            mul_le_mul_of_nonneg_left hqw (Nat.cast_nonneg hL)
          nlinarith
        have hprog := schedulerLoop_l4s_progress cfg eC eL hC hL hqw0 hLz (hLel hLz) hCel
          hL st2 hmL2 hmC2 hbound
        exact schedulerLoop_mono cfg eC eL hC hL (hL + 1) f st2 (by omega) hprog

/-- C7 (amended): with a positive quantum, a scheduling weight at least 1,
nonnegative deficits, and the additional precondition that EVERY class with
a nonzero head-of-line size is eligible (as in ordinary dequeue, which
passes both flags true), a scheduler call with at least one nonempty class
selects L or C before the iteration cap. The claim as stated fails: a
nonempty but ineligible class keeps its round-mask bit, so no new round
starts, the eligible class's deficit never grows, and the loop runs to the
cap and aborts (see the counterexample); moreover the written cap of 1000
is ineffective, since the loop body increments the bound variable on every
iteration, so the abort fires only after 2^32 - 1000 iterations. -/
theorem scheduler_selects (cfg : Config) (eligC eligL : Bool) (s : QState)
    (hq : 1 ≤ cfg.drrQuantum) (hw : 1 ≤ cfg.schedulingWeight)
    (hd1 : 0 ≤ s.sched.llDef) (hd2 : 0 ≤ s.sched.cDef)
    (hLel : holOf s.qL ≠ 0 → eligL = true)
    (hCel : holOf s.qC ≠ 0 → eligC = true)
    (hne : holOf s.qL ≠ 0 ∨ holOf s.qC ≠ 0)
    (hcap : holOf s.qL + holOf s.qC + 2 ≤ schedulerCap) :
    (Scheduler cfg eligC eligL s).1.isSome = true := by
  have hq1 : (1 : Rat) ≤ (cfg.drrQuantum : Rat) := by exact_mod_cast hq
  have hqw : (1 : Rat) ≤ (cfg.drrQuantum : Rat) * cfg.schedulingWeight := by nlinarith
  have hlen : ¬(s.qC.length + s.qL.length = 0) := by
    intro h0
    have hqc : s.qC = [] := List.length_eq_zero.mp (by omega)
    have hql : s.qL = [] := List.length_eq_zero.mp (by omega)
    rcases hne with hx | hx
    · rw [hql] at hx
      exact hx rfl
    · rw [hqc] at hx
      exact hx rfl
  unfold Scheduler
  rw [if_neg hlen]
  exact schedulerLoop_selects cfg eligC eligL (holOf s.qC) (holOf s.qL) hqw hq1 hLel hCel
    hne s.sched hd1 hd2 schedulerCap (by omega)

/-- Witness for scheduler_selects: the reachable overload state with three
Classic packets selects Classic under full eligibility. -/
theorem scheduler_selects_witness :
    (Scheduler defaultConfig true true sOverCLit).1.isSome = true :=
  scheduler_selects defaultConfig true true sOverCLit (by norm_num [defaultConfig])
    (by norm_num [defaultConfig]) (by norm_num [sOverCLit]) (by norm_num [sOverCLit])
    (fun _ => rfl) (fun _ => rfl)
    (Or.inr (by norm_num [sOverCLit, holOf, pk1]))
    (by norm_num [sOverCLit, holOf, pk1, schedulerCap])

theorem sEnq3_eval : sEnq3 = sEnq3Lit := by
  unfold sEnq3 sEnq3Lit DoEnqueue initState cfgQ defaultConfig itemL itemC
  norm_num [bytesOf, IsL4s]

theorem sEnq3_schedStep :
    schedStep cfgQ true true 1500 100 ⟨0, 0, false, false⟩ =
      StepRes.sel TrafficClass.l4s ⟨0, 100, true, true⟩ := by
  norm_num [schedStep, schedRound, schedTryL, schedTryC, cfgQ, defaultConfig]

theorem sEnq3_sched : Scheduler cfgQ true true sEnq3Lit =
    (some TrafficClass.l4s, ⟨0, 100, true, true⟩) := by
  unfold Scheduler
  rw [show holOf sEnq3Lit.qL = 100 from rfl, show holOf sEnq3Lit.qC = 1500 from rfl]
  rw [if_neg (by norm_num [sEnq3Lit])]
  exact schedulerLoop_sel _ _ _ _ _ _ _ _ _ (by norm_num [schedulerCap]) sEnq3_schedStep

theorem sEnq3_deqL :
    DequeueFromL4sQueue cfgQ 0 { sEnq3Lit with sched := ⟨0, 100, true, true⟩ } =
      ⟨some itemL, false, [], sDeq1Lit⟩ := by
  norm_num [DequeueFromL4sQueue, DeqLAux, Recur, Laqm, bytesOf, sEnq3Lit, sDeq1Lit,
    itemL, itemC, cfgQ, defaultConfig]

theorem sDeq1_eval : sDeq1 = sDeq1Lit := by
  unfold sDeq1
  rw [sEnq3_eval]
  have h0 : DoDequeue cfgQ 0 sEnq3Lit = DoDequeueLoop cfgQ 0 3 sEnq3Lit := rfl
  rw [h0, show (3 : Nat) = 2 + 1 from rfl]
  simp only [DoDequeueLoop]
  rw [if_neg (by norm_num [sEnq3Lit, bytesOf, itemL, itemC]), sEnq3_sched]
  dsimp only
  rw [sEnq3_deqL]

theorem stuck_fix_step :
    schedStep cfgQ false true 1500 100 sStuckFix = StepRes.cont sStuckFix := by
  norm_num [schedStep, schedRound, schedTryL, schedTryC, sStuckFix, cfgQ, defaultConfig]

theorem stuck_entry_step :
    schedStep cfgQ false true 1500 100 ⟨0, 100, true, true⟩ = StepRes.cont sStuckFix := by
  norm_num [schedStep, schedRound, schedTryL, schedTryC, sStuckFix, cfgQ, defaultConfig]

theorem stuck_loop (fuel : Nat) :
    schedulerLoop cfgQ false true 1500 100 fuel sStuckFix = (none, sStuckFix) := by
  induction fuel with
  | zero => rfl
  | succ n ih =>
    rw [schedulerLoop, stuck_fix_step]
    exact ih

theorem sPD_sched_none :
    (Scheduler cfgQ false true (refreshSamples 0 sDeq1Lit)).1 = none := by
  unfold Scheduler
  rw [show holOf (refreshSamples 0 sDeq1Lit).qL = 100 from rfl,
    show holOf (refreshSamples 0 sDeq1Lit).qC = 1500 from rfl]
  rw [if_neg (by norm_num [refreshSamples, sDeq1Lit, sEnq3Lit])]
  rw [show (refreshSamples 0 sDeq1Lit).sched = (⟨0, 100, true, true⟩ : SchedSt) from rfl]
  obtain ⟨m, hm⟩ := Nat.exists_eq_succ_of_ne_zero
    (show schedulerCap ≠ 0 by norm_num [schedulerCap])
  rw [hm, schedulerLoop, stuck_entry_step]
  show (schedulerLoop cfgQ false true 1500 100 m sStuckFix).1 = none
  rw [stuck_loop m]

/-- C7 counterexample: sDeq1 is reachable (three enqueues and one ordinary
dequeue under DrrQuantum 100, SchedulingWeight 1); the pending-dequeue
callback invoked there with 140 pending bytes passes its budget test and
computes eligibility (Classic ineligible, L4S eligible with a 100-byte head
of line), yet the scheduler call made with that eligibility returns NONE:
the Classic class, nonempty but ineligible, keeps its round-mask bit, so no
new round ever starts, the L deficit stays at 0 below the head-of-line
size, and the loop body repeats without effect until the iteration bound
finally trips (after 2^32 - 1000 iterations, the bound variable being
incremented each iteration) into NS_FATAL_ERROR - despite an eligible
class with a head-of-line packet. -/
theorem scheduler_starves_eligible_class :
    Reachable cfgQ sDeq1 ∧
    140 ≤ queueDiscPending (refreshSamples 0 sDeq1) ∧
    CanSchedule cfgQ 140 (refreshSamples 0 sDeq1) = (false, true) ∧
    holOf (refreshSamples 0 sDeq1).qL = 100 ∧
    (Scheduler cfgQ false true (refreshSamples 0 sDeq1)).1 = none := by
  refine ⟨?_, ?_, ?_, ?_, ?_⟩
  · exact Reachable.dequeue 0 _
      (Reachable.enqueue _ _ (Reachable.enqueue _ _ (Reachable.enqueue _ _ Reachable.init)))
  · rw [sDeq1_eval]
    decide
  · rw [sDeq1_eval]
    decide
  · rw [sDeq1_eval]
    rfl
  · rw [sDeq1_eval]
    exact sPD_sched_none

end DualPi2
